import Mathlib

/-!
# SparseChol: the exported entry points of `src/chol.cpp`

A shallow embedding of the four exported functions of `chol.cpp`
(`sparse_chol_crs`, `sparse_chol`, `amd_order`, `dense_to_sparse`) together
with theorems about index-base ingestion, the dimension check and error
behaviour.

Conventions of the embedding:

* a C++ `int` is an `Int` lying in `[INT_MIN, INT_MAX]`; the decrement `n--`
  is taken modulo `2^32` (two's complement);
* `std::vector<T>` is a `List`; an unchecked read `v[0]` of an empty vector
  has no defined result and makes the embedded function return `none`;
* `double` values are an abstract type `V`: `chol.cpp` only moves them around;
* the classes `sparse` and `SparseChol` come from `SparseChol.h`, which is not
  part of the sources; what `chol.cpp` calls on them is collected in the
  record `Core` and passed as a parameter.
-/

namespace Chol

/-! ## Machine integers -/

/-- Smallest value of a 32-bit C++ `int`. -/
def INT_MIN : Int := -2147483648

/-- Largest value of a 32-bit C++ `int`. -/
def INT_MAX : Int := 2147483647

/-- Membership of the range of `int`. -/
def IsInt (x : Int) : Prop := INT_MIN ≤ x ∧ x ≤ INT_MAX

instance (x : Int) : Decidable (IsInt x) := by
  unfold IsInt; infer_instance

/-- Every element of a `std::vector<int>` is an `int`. -/
def IntVec (xs : List Int) : Prop := ∀ x ∈ xs, IsInt x

instance (xs : List Int) : Decidable (IntVec xs) := by
  unfold IntVec; infer_instance

/-- Reduction of a mathematical integer to the 32-bit two's complement range. -/
def wrapInt (x : Int) : Int := (x + 2147483648) % 4294967296 - 2147483648

/-- The lambda `[](int &n){ n--; }` of `sparse_chol_crs`, on one element. -/
def decr (x : Int) : Int := wrapInt (x - 1)

/-- The call `std::for_each(v.begin(), v.end(), [](int &n){ n--; })`. -/
def for_each_decr (v : List Int) : List Int := v.map decr

/-! ## The data model -/

/-- The class `sparse` as `chol.cpp` uses it: the public members `n`, `m`,
`Ap`, `Ai`, `Ax`. -/
structure sparse (V : Type) where
  n : Int
  m : Int
  Ap : List Int
  Ai : List Int
  Ax : List V
  deriving DecidableEq, Repr

/-- Modelled from the spec: the constructor `sparse(std::vector<int>)` of
`SparseChol.h` (absent from the sources), used as `sparse mat(Ap)`. It builds
a matrix "from raw arrays" (spec section 3): the column pointers are stored,
everything else is empty until the caller assigns it. -/
def sparse.ofAp {V : Type} (Ap : List Int) : sparse V :=
  ⟨0, 0, Ap, [], []⟩

/-- The ingestion step of `sparse_chol_crs`, lines 33 to 39 of `chol.cpp`:
the matrix that is handed to `SparseChol chol(mat)`. The reads `Ai[0]` and
`Ap[0]` are unchecked; `none` stands for a read outside the vector. -/
def ingest {V : Type} (n : Int) (Ap Ai : List Int) (Ax : List V) :
    Option (sparse V) := do
  let mat : sparse V := sparse.ofAp Ap
  let mat := { mat with n := n }
  let mat := { mat with m := n }
  let mat := { mat with Ai := Ai }
  let ai0 ← Ai[0]?
  let mat := if ai0 ≠ 0 then { mat with Ai := for_each_decr mat.Ai } else mat
  let ap0 ← Ap[0]?
  let mat := if ap0 ≠ 0 then { mat with Ap := for_each_decr mat.Ap } else mat
  return { mat with Ax := Ax }

/-- The index-base normalisation alone: the arrays `Ap`, `Ai` of the ingested
matrix. -/
def norm (Ap Ai : List Int) : Option (List Int × List Int) :=
  (ingest 0 Ap Ai ([] : List Unit)).map fun mat => (mat.Ap, mat.Ai)

/-- Normalising twice: the arrays produced by `norm` are normalised again. -/
def norm_twice (Ap Ai : List Int) : Option (List Int × List Int) :=
  (norm Ap Ai).bind fun r => norm r.1 r.2

/-! ## The collaborators from `SparseChol.h` -/

/-- An `Rcpp::NumericMatrix`: `rows()`, `cols()` and the values. -/
structure NumericMatrix (V : Type) where
  rows : Int
  cols : Int
  data : List V
  deriving DecidableEq, Repr

/-- What `chol.cpp` calls on the classes `sparse` and `SparseChol` of
`SparseChol.h`. The header is not part of the sources, so these operations are
parameters of every function below. -/
structure Core (V : Type) where
  /-- State of an object of class `SparseChol`. -/
  SparseChol : Type
  /-- The constructor `sparse A(n, m, mat)`. -/
  sparse_of_dense : Int → Int → NumericMatrix V → sparse V
  /-- The call `A.permute()`. -/
  permute : sparse V → List Int
  /-- The call `A.permute_inv()`. -/
  permute_inv : sparse V → List Int
  /-- The constructor `SparseChol chol(mat)`. -/
  new : sparse V → SparseChol
  /-- The call `chol.ldl_numeric()`: the returned count and the new state. -/
  ldl_numeric : SparseChol → Int × SparseChol
  /-- The member `chol.L`. -/
  L : SparseChol → sparse V
  /-- The member `chol.D`. -/
  D : SparseChol → List V
  /-- The matrix `chol.LD()` assembles when it goes through. -/
  LD_assembled : SparseChol → sparse V
  /-- The call `B.dense(flag)`. -/
  dense : sparse V → Bool → List V

/-- Ways in which a call can end without a value: `Rcpp::stop(msg)`, the error
kinds `FactorizationError` and `NegativeDiagonalError` of spec section 7, and
an unchecked read outside a vector. -/
inductive Fault where
  | stop (msg : String)
  | FactorizationError (column : Int)
  | NegativeDiagonalError
  | out_of_bounds
  deriving DecidableEq, Repr

/-- One item written to `Rcpp::Rcout`. -/
inductive Printed where
  | str (s : String)
  | int (i : Int)
  deriving DecidableEq, Repr

/-- The calls into `SparseChol.h`, in the order in which a function makes
them. -/
inductive Step where
  | sparse_of_dense
  | permute
  | permute_inv
  | new
  | ldl_numeric
  | LD
  | dense
  deriving DecidableEq, Repr

/-- Modelled from the spec: `SparseChol::LD()`, absent from the sources.
Spec section 6, item 4: "fails with NegativeDiagonalError if any D[j] < 0";
otherwise it yields the assembled factor. -/
def LD {V : Type} [Zero V] [LT V] [DecidableRel (fun (a b : V) => a < b)]
    (core : Core V) (chol : core.SparseChol) : Except Fault (sparse V) :=
  if (core.D chol).any (fun x => decide (x < 0)) then
    .error .NegativeDiagonalError
  else
    .ok (core.LD_assembled chol)

/-! ## The exported functions -/

/-- The list `n, Ap, Ai, Ax, D` returned by `sparse_chol_crs`. -/
structure CrsList (V : Type) where
  n : Int
  Ap : List Int
  Ai : List Int
  Ax : List V
  D : List V
  deriving DecidableEq, Repr

/-- The function `sparse_chol_crs`, lines 29 to 49 of `chol.cpp`: what is
written to `Rcout` and the returned list. -/
def sparse_chol_crs {V : Type} (core : Core V) (n : Int) (Ap Ai : List Int)
    (Ax : List V) : Except Fault (List Printed × CrsList V) :=
  match ingest n Ap Ai Ax with
  | none => .error .out_of_bounds
  | some mat =>
    let chol := core.new mat
    let (d, chol) := core.ldl_numeric chol
    let rcout := [Printed.str "d: ", Printed.int d]
    .ok (rcout, ⟨(core.L chol).n, (core.L chol).Ap, (core.L chol).Ai,
      (core.L chol).Ax, core.D chol⟩)

/-- The numeric vector with attribute `dim` returned by `sparse_chol`. -/
structure DenseOut (V : Type) where
  data : List V
  dim : Int × Int
  deriving DecidableEq, Repr

/-- The function `sparse_chol`, lines 69 to 80 of `chol.cpp`: the calls made
into `SparseChol.h` and the outcome. -/
def sparse_chol {V : Type} [Zero V] [LT V] [DecidableRel (fun (a b : V) => a < b)]
    (core : Core V) (mat : NumericMatrix V) : List Step × Except Fault (DenseOut V) :=
  let n := mat.rows
  let m := mat.cols
  if m ≠ n then ([], .error (.stop "Matrix must be square"))
  else
    let A := core.sparse_of_dense n m mat
    let chol := core.new A
    let (_, chol) := core.ldl_numeric chol
    match LD core chol with
    | .error e => ([.sparse_of_dense, .new, .ldl_numeric, .LD], .error e)
    | .ok B =>
      let output := core.dense B false
      ([.sparse_of_dense, .new, .ldl_numeric, .LD, .dense], .ok ⟨output, (n, m)⟩)

/-- The list `P, Pinv` returned by `amd_order`. -/
structure OrderList where
  P : List Int
  Pinv : List Int
  deriving DecidableEq, Repr

/-- The function `amd_order`, lines 92 to 103 of `chol.cpp`. -/
def amd_order {V : Type} (core : Core V) (mat : NumericMatrix V) :
    List Step × Except Fault OrderList :=
  let n := mat.rows
  let m := mat.cols
  if m ≠ n then ([], .error (.stop "Matrix must be square"))
  else
    let A := core.sparse_of_dense n m mat
    let P := core.permute A
    let Pinv := core.permute_inv A
    ([.sparse_of_dense, .permute, .permute_inv], .ok ⟨P, Pinv⟩)

/-- The list `n, Ap, Ai, Ax` returned by `dense_to_sparse`. -/
structure SparseList (V : Type) where
  n : Int
  Ap : List Int
  Ai : List Int
  Ax : List V
  deriving DecidableEq, Repr

/-- The function `dense_to_sparse`, lines 118 to 125 of `chol.cpp`. -/
def dense_to_sparse {V : Type} (core : Core V) (mat : NumericMatrix V) :
    List Step × Except Fault (SparseList V) :=
  let n := mat.rows
  let m := mat.cols
  if m ≠ n then ([], .error (.stop "Matrix must be square"))
  else
    let A := core.sparse_of_dense n m mat
    ([.sparse_of_dense], .ok ⟨A.n, A.Ap, A.Ai, A.Ax⟩)

/-! ## Predicates of the data model (spec section 3) -/

/-- Monotonically non-decreasing offsets. -/
def NonDecreasing (xs : List Int) : Prop := xs.Pairwise (fun a b => a ≤ b)

instance (xs : List Int) : Decidable (NonDecreasing xs) := by
  unfold NonDecreasing; infer_instance

/-- A valid zero-based compressed-column input of dimension `n`: `Ap` of
length `n+1` with `Ap[0] = 0` and non-decreasing, every `Ai` in `[0, n)`,
`Ai` non-empty. -/
def ValidZeroBased (n : Int) (Ap Ai : List Int) : Prop :=
  (Ap.length : Int) = n + 1 ∧ Ap[0]? = some 0 ∧ NonDecreasing Ap ∧
    (∀ a ∈ Ai, 0 ≤ a ∧ a < n) ∧ Ai ≠ []

instance (n : Int) (Ap Ai : List Int) : Decidable (ValidZeroBased n Ap Ai) := by
  unfold ValidZeroBased; infer_instance

/-- A valid compressed-column input of dimension `n` in one-based form: `Ap`
of length `n+1` with `Ap[0] = 1` and non-decreasing, `Ai` non-empty with every
entry in `[1, n]`, `Ax` as long as `Ai`. -/
def ValidOneBased {V : Type} (n : Int) (Ap Ai : List Int) (Ax : List V) : Prop :=
  (Ap.length : Int) = n + 1 ∧ Ap[0]? = some 1 ∧ NonDecreasing Ap ∧
    Ai ≠ [] ∧ (∀ a ∈ Ai, 1 ≤ a ∧ a ≤ n) ∧ Ax.length = Ai.length

instance {V : Type} (n : Int) (Ap Ai : List Int) (Ax : List V) :
    Decidable (ValidOneBased n Ap Ai Ax) := by
  unfold ValidOneBased; infer_instance

/-- The SparseMatrix invariant of spec section 3 for a square matrix of
dimension `n`: `Ap` has `n+1` zero-based non-decreasing offsets, every row
index is in `[0, n)`, `Ax` is as long as `Ai`. -/
def SparseInvariant {V : Type} (n : Int) (mat : sparse V) : Prop :=
  mat.n = n ∧ mat.m = n ∧ (mat.Ap.length : Int) = n + 1 ∧ mat.Ap[0]? = some 0 ∧
    NonDecreasing mat.Ap ∧ (∀ a ∈ mat.Ai, 0 ≤ a ∧ a < n) ∧
    mat.Ax.length = mat.Ai.length

instance {V : Type} (n : Int) (mat : sparse V) : Decidable (SparseInvariant n mat) := by
  unfold SparseInvariant; infer_instance

/-! ## Sample collaborators, for evaluating the functions on concrete inputs -/

/-- A sample instance of `Core`, used to evaluate the functions at concrete
inputs: its factorizer ends with a given count `d`, factor `L` and diagonal
`D`, and its dense conversion keeps the values as they come. -/
def fixedCore (d : Int) (L : sparse Int) (D : List Int) : Core Int where
  SparseChol := Unit
  sparse_of_dense := fun n m mat => ⟨n, m, [], [], mat.data⟩
  permute := fun _ => []
  permute_inv := fun _ => []
  new := fun _ => ()
  ldl_numeric := fun _ => (d, ())
  L := fun _ => L
  D := fun _ => D
  LD_assembled := fun _ => L
  dense := fun B _ => B.Ax

/-! ## Documented inputs -/

/-- The `Ap` of the `@examples` block of `sparse_chol_crs` (line 21). -/
def example_Ap : List Int := [0, 1, 2, 3, 4, 6, 7, 9, 11, 15, 19]

/-- The `Ai` of the `@examples` block of `sparse_chol_crs` (line 22). -/
def example_Ai : List Int :=
  [1, 2, 3, 4, 2, 5, 6, 5, 7, 5, 8, 1, 5, 8, 9, 2, 5, 7, 10]

/-- The `Ax` of the `@examples` block of `sparse_chol_crs` (lines 23, 24), as
exact decimal fractions. -/
def example_Ax : List Rat :=
  [1.7, 1, 1.5, 1.1, 0.02, 2.6, 1.2, 0.16, 1.3, 0.09, 1.6, 0.13, 0.52, 0.11, 1.4,
    0.01, 0.53, 0.56, 3.1]

/-- The zero-based `Ap` of the end-to-end example of spec section 8. -/
def spec_Ap : List Int := [0, 1, 2, 3, 4, 6, 7, 9, 11, 15, 19]

/-- The zero-based `Ai` of the end-to-end example of spec section 8. -/
def spec_Ai : List Int :=
  [0, 1, 2, 3, 1, 4, 5, 4, 6, 4, 7, 0, 4, 7, 8, 1, 4, 6, 9]

/-! ## Facts about the machine decrement -/

theorem decr_of_gt_min (x : Int) (hx : IsInt x) (hmin : x ≠ INT_MIN) :
    decr x = x - 1 := by
  unfold IsInt INT_MIN INT_MAX at *
  unfold decr wrapInt
  omega

theorem decr_ne_self (x : Int) : decr x ≠ x := by
  unfold decr wrapInt
  omega

theorem decr_eq_zero_iff (x : Int) (hx : IsInt x) : decr x = 0 ↔ x = 1 := by
  unfold IsInt INT_MIN INT_MAX at *
  unfold decr wrapInt
  omega

theorem decr_isInt (x : Int) : IsInt (decr x) := by
  unfold IsInt INT_MIN INT_MAX decr wrapInt
  omega

/-! ## The ingestion step in closed form -/

theorem ingest_cons {V : Type} (n a b : Int) (Ap Ai : List Int) (Ax : List V) :
    ingest n (a :: Ap) (b :: Ai) Ax =
      some ⟨n, n, if a = 0 then a :: Ap else for_each_decr (a :: Ap),
        if b = 0 then b :: Ai else for_each_decr (b :: Ai), Ax⟩ := by
  by_cases ha : a = 0 <;> by_cases hb : b = 0 <;>
    simp [ingest, sparse.ofAp, ha, hb]

theorem ingest_nil_Ai {V : Type} (n : Int) (Ap : List Int) (Ax : List V) :
    ingest n Ap [] Ax = none := by
  simp [ingest]

theorem ingest_nil_Ap {V : Type} (n : Int) (Ai : List Int) (Ax : List V) :
    ingest n [] Ai Ax = none := by
  cases Ai <;> simp [ingest]

theorem map_decr_eq_sub_one (xs : List Int) (hx : IntVec xs)
    (hmin : ∀ a ∈ xs, a ≠ INT_MIN) : for_each_decr xs = xs.map (fun a => a - 1) := by
  unfold for_each_decr
  apply List.map_congr_left
  intro a ha
  exact decr_of_gt_min a (hx a ha) (hmin a ha)

theorem getElem?_for_each_decr (xs : List Int) (hx : IntVec xs) (k : Nat) (a : Int)
    (hk : xs[k]? = some a) (hmin : a ≠ INT_MIN) :
    (for_each_decr xs)[k]? = some (a - 1) := by
  simp only [for_each_decr, List.getElem?_map, hk, Option.map_some']
  rw [decr_of_gt_min a (hx a (List.getElem?_mem hk)) hmin]

theorem ge_head_of_nonDecreasing (a : Int) (xs : List Int)
    (h : NonDecreasing (a :: xs)) : ∀ x ∈ a :: xs, a ≤ x := by
  intro x hx
  rcases List.mem_cons.mp hx with rfl | hx
  · exact le_refl _
  · exact (List.pairwise_cons.mp h).1 x hx

/-! ## Ingestion of one-based and zero-based input -/

/-- C1: for every input with non-empty `Ap` and `Ai` that is one-based
(`Ap[0] = 1`, every entry of `Ai` in `[1, n]`), the matrix handed to the
factorizer has `Ap[k]` equal to the input `Ap[k] - 1` for every `k` and `Ai[k]`
equal to the input `Ai[k] - 1` for every `k`: every index is decremented
exactly once. The arrays are `int` arrays, and so is the array of the values
`Ap[k] - 1`. -/
theorem C1_one_based_decremented_once {V : Type} (n : Int) (Ap Ai : List Int)
    (Ax : List V) (hAp : IntVec Ap) (hAi : IntVec Ai)
    (hAp1 : IntVec (Ap.map (fun a => a - 1))) (hAp0 : Ap[0]? = some 1)
    (hne : Ai ≠ []) (hrange : ∀ a ∈ Ai, 1 ≤ a ∧ a ≤ n) :
    ∃ mat, ingest n Ap Ai Ax = some mat ∧ mat.n = n ∧ mat.m = n ∧ mat.Ax = Ax ∧
      mat.Ap = Ap.map (fun a => a - 1) ∧ mat.Ai = Ai.map (fun a => a - 1) := by
  cases Ap with
  | nil => simp at hAp0
  | cons a Ap =>
    cases Ai with
    | nil => exact absurd rfl hne
    | cons b Ai =>
      have ha : a = 1 := by simpa using hAp0
      have hb : b ≠ 0 := by
        have := (hrange b (List.mem_cons_self _ _)).1
        omega
      subst ha
      refine ⟨_, ingest_cons n 1 b Ap Ai Ax, rfl, rfl, rfl, ?_, ?_⟩
      · simp only [one_ne_zero, if_false]
        apply map_decr_eq_sub_one _ hAp
        intro x hx
        have := hAp1 (x - 1) (List.mem_map.mpr ⟨x, hx, rfl⟩)
        unfold IsInt INT_MIN INT_MAX at *
        omega
      · simp only [hb, if_false]
        apply map_decr_eq_sub_one _ hAi
        intro x hx
        have := (hrange x hx).1
        unfold INT_MIN
        omega

/-- C1, at the one-based form of the matrix `[[0,1],[1,0]]`. -/
theorem C1_one_based_decremented_once_witness :
    ∃ mat, ingest 2 [1, 2, 3] [2, 1] [(7 : Int), 7] = some mat ∧ mat.n = 2 ∧
      mat.m = 2 ∧ mat.Ax = [7, 7] ∧ mat.Ap = [1, 2, 3].map (fun a => a - 1) ∧
      mat.Ai = [2, 1].map (fun a => a - 1) :=
  C1_one_based_decremented_once 2 [1, 2, 3] [2, 1] [7, 7] (by decide) (by decide)
    (by decide) (by decide) (by decide) (by decide)

/-- C2, as stated, fails at the zero-based form of the matrix `[[0,1],[1,0]]`
(`n = 2`, `Ap = [0,1,2]`, `Ai = [1,0]`): the input is a valid zero-based
matrix, yet the ingested `Ai` is `[0,-1]`. -/
theorem C2_counterexample :
    ValidZeroBased 2 [0, 1, 2] [1, 0] ∧
      ingest 2 [0, 1, 2] [1, 0] [(1 : Int), 1] =
        some ⟨2, 2, [0, 1, 2], [0, -1], [1, 1]⟩ ∧
      [(0 : Int), -1] ≠ [1, 0] := by
  decide

/-- C2 (amended): for every valid zero-based compressed-column input the
matrix handed to the factorizer has `Ap` equal to the input `Ap`, and has `Ai`
equal to the input `Ai` exactly when the first row index `Ai[0]` is `0`. -/
theorem C2_zero_based_unchanged_iff {V : Type} (n : Int) (Ap Ai : List Int)
    (Ax : List V) (hvalid : ValidZeroBased n Ap Ai) :
    ∃ mat, ingest n Ap Ai Ax = some mat ∧ mat.n = n ∧ mat.m = n ∧ mat.Ax = Ax ∧
      mat.Ap = Ap ∧ (mat.Ai = Ai ↔ Ai[0]? = some 0) := by
  obtain ⟨_, hAp0, _, _, hne⟩ := hvalid
  cases Ap with
  | nil => simp at hAp0
  | cons a Ap =>
    cases Ai with
    | nil => exact absurd rfl hne
    | cons b Ai =>
      have ha : a = 0 := by simpa using hAp0
      subst ha
      refine ⟨_, ingest_cons n 0 b Ap Ai Ax, rfl, rfl, rfl, by simp, ?_⟩
      by_cases hb : b = 0
      · simp [hb]
      · have := decr_ne_self b
        simp [hb, for_each_decr, this]

/-- C2 (amended), at the zero-based form of a 2 x 2 diagonal matrix. -/
theorem C2_zero_based_unchanged_iff_witness :
    ∃ mat, ingest 2 [0, 1, 2] [0, 1] [(3 : Int), 4] = some mat ∧ mat.n = 2 ∧
      mat.m = 2 ∧ mat.Ax = [3, 4] ∧ mat.Ap = [0, 1, 2] ∧
      (mat.Ai = [0, 1] ↔ [(0 : Int), 1][0]? = some 0) :=
  C2_zero_based_unchanged_iff 2 [0, 1, 2] [0, 1] [3, 4] (by decide)

/-- C3, as stated, fails at `Ap = [0]`, `Ai = [2]`: the first normalisation
gives `Ai = [1]`, the second one `Ai = [0]`. -/
theorem C3_counterexample :
    norm [0] [2] = some ([0], [1]) ∧ norm_twice [0] [2] = some ([0], [0]) ∧
      norm_twice [0] [2] ≠ norm [0] [2] := by
  decide

/-- C3 (amended): for every pair of non-empty `int` arrays `Ap`, `Ai`,
normalising twice equals normalising once if and only if each of `Ap[0]` and
`Ai[0]` is `0` or `1`. -/
theorem C3_norm_idempotent_iff (Ap Ai : List Int) (hAp : IntVec Ap)
    (hAi : IntVec Ai) (hApne : Ap ≠ []) (hAine : Ai ≠ []) :
    norm_twice Ap Ai = norm Ap Ai ↔
      (Ap[0]? = some 0 ∨ Ap[0]? = some 1) ∧ (Ai[0]? = some 0 ∨ Ai[0]? = some 1) := by
  cases Ap with
  | nil => exact absurd rfl hApne
  | cons a Ap =>
    cases Ai with
    | nil => exact absurd rfl hAine
    | cons b Ai =>
      have ha := decr_eq_zero_iff a (hAp a (List.mem_cons_self _ _))
      have hb := decr_eq_zero_iff b (hAi b (List.mem_cons_self _ _))
      have ha2 := decr_ne_self (decr a)
      have hb2 := decr_ne_self (decr b)
      by_cases ha0 : a = 0 <;> by_cases hb0 : b = 0 <;>
        by_cases ha1 : a = 1 <;> by_cases hb1 : b = 1 <;>
        simp_all [norm_twice, norm, ingest_cons, for_each_decr]

/-- C3 (amended), at a one-based pair of arrays. -/
theorem C3_norm_idempotent_iff_witness :
    norm_twice [1, 2, 3] [1, 2] = norm [1, 2, 3] [1, 2] ↔
      ([(1 : Int), 2, 3][0]? = some 0 ∨ [(1 : Int), 2, 3][0]? = some 1) ∧
        ([(1 : Int), 2][0]? = some 0 ∨ [(1 : Int), 2][0]? = some 1) :=
  C3_norm_idempotent_iff [1, 2, 3] [1, 2] (by decide) (by decide) (by decide)
    (by decide)

/-! ## The dimension check -/

/-- C4: for every dense input, each of `dense_to_sparse`, `amd_order` and
`sparse_chol` ends with the error "Matrix must be square" if and only if the
number of columns differs from the number of rows, and in that case it has
made no call into the sparse-matrix, ordering or factorization code. -/
theorem C4_dimension_check {V : Type} [Zero V] [LT V]
    [DecidableRel (fun (a b : V) => a < b)] (core : Core V) (mat : NumericMatrix V) :
    ((dense_to_sparse core mat).2 = .error (.stop "Matrix must be square") ↔
        mat.cols ≠ mat.rows) ∧
      ((amd_order core mat).2 = .error (.stop "Matrix must be square") ↔
        mat.cols ≠ mat.rows) ∧
      ((sparse_chol core mat).2 = .error (.stop "Matrix must be square") ↔
        mat.cols ≠ mat.rows) ∧
      (mat.cols ≠ mat.rows →
        (dense_to_sparse core mat).1 = [] ∧ (amd_order core mat).1 = [] ∧
          (sparse_chol core mat).1 = []) := by
  by_cases h : mat.cols = mat.rows
  · refine ⟨?_, ?_, ?_, fun hne => absurd h hne⟩
    · simp [dense_to_sparse, h]
    · simp [amd_order, h]
    · simp only [sparse_chol, h, ne_eq, not_true_eq_false, if_false, iff_false]
      cases hLD : LD core (core.ldl_numeric (core.new
          (core.sparse_of_dense mat.rows mat.rows mat))).2 with
      | error e =>
        simp only [LD] at hLD
        split at hLD
        · cases hLD
          simp
        · cases hLD
      | ok B => simp
  · simp [dense_to_sparse, amd_order, sparse_chol, h]

/-- C4, at a matrix with 2 rows and 3 columns. -/
theorem C4_dimension_check_witness :
    (dense_to_sparse (fixedCore 2 ⟨2, 2, [0, 0, 0], [], []⟩ [1, 1])
        ⟨2, 3, [1, 0, 0, 1, 0, 0]⟩).2 = .error (.stop "Matrix must be square") ∧
      (sparse_chol (fixedCore 2 ⟨2, 2, [0, 0, 0], [], []⟩ [1, 1])
        ⟨2, 3, [1, 0, 0, 1, 0, 0]⟩).1 = [] := by
  have h := C4_dimension_check (fixedCore 2 ⟨2, 2, [0, 0, 0], [], []⟩ [1, 1])
    ⟨2, 3, [1, 0, 0, 1, 0, 0]⟩
  exact ⟨h.1.mpr (by decide), (h.2.2.2 (by decide)).2.2⟩

/-! ## Numeric breakdown -/

/-- C5, as stated, fails at the matrix `[[0,1],[1,0]]` (one-based arrays
`Ap = [1,2,3]`, `Ai = [2,1]`) with a factorizer that breaks down at column 0
and returns the count `0 < 2`: `sparse_chol_crs` writes `d: 0` and returns the
list; it does not end with a `FactorizationError`. -/
theorem C5_counterexample :
    ingest 2 [1, 2, 3] [2, 1] [(1 : Int), 1] = some ⟨2, 2, [0, 1, 2], [1, 0], [1, 1]⟩ ∧
      ((fixedCore 0 ⟨2, 2, [0, 0, 0], [], []⟩ [0, 0]).ldl_numeric ()).1 < 2 ∧
      sparse_chol_crs (fixedCore 0 ⟨2, 2, [0, 0, 0], [], []⟩ [0, 0]) 2 [1, 2, 3] [2, 1]
          [1, 1] =
        .ok ([.str "d: ", .int 0], ⟨2, [0, 0, 0], [], [], [0, 0]⟩) ∧
      ∀ k : Int,
        sparse_chol_crs (fixedCore 0 ⟨2, 2, [0, 0, 0], [], []⟩ [0, 0]) 2 [1, 2, 3] [2, 1]
          [1, 1] ≠ .error (.FactorizationError k) := by
  refine ⟨by decide, by decide, rfl, ?_⟩
  intro k h
  cases h

/-- C5 (amended): for every input on which the numeric factorization breaks
down (`ldl_numeric` returns a count `d < n` on the ingested matrix),
`sparse_chol_crs` raises no error: it writes `d: ` followed by `d` to `Rcout`
and returns the list `(n, Ap, Ai, Ax, D)` read from the factorizer's `L` and
`D` as they are. -/
theorem C5_breakdown_not_reported {V : Type} (core : Core V) (n : Int)
    (Ap Ai : List Int) (Ax : List V) (mat : sparse V)
    (hmat : ingest n Ap Ai Ax = some mat)
    (_hd : (core.ldl_numeric (core.new mat)).1 < n) :
    sparse_chol_crs core n Ap Ai Ax =
        .ok ([.str "d: ", .int (core.ldl_numeric (core.new mat)).1],
          ⟨(core.L (core.ldl_numeric (core.new mat)).2).n,
            (core.L (core.ldl_numeric (core.new mat)).2).Ap,
            (core.L (core.ldl_numeric (core.new mat)).2).Ai,
            (core.L (core.ldl_numeric (core.new mat)).2).Ax,
            core.D (core.ldl_numeric (core.new mat)).2⟩) ∧
      ∀ k : Int, sparse_chol_crs core n Ap Ai Ax ≠ .error (.FactorizationError k) := by
  have hres : sparse_chol_crs core n Ap Ai Ax =
      .ok ([.str "d: ", .int (core.ldl_numeric (core.new mat)).1],
        ⟨(core.L (core.ldl_numeric (core.new mat)).2).n,
          (core.L (core.ldl_numeric (core.new mat)).2).Ap,
          (core.L (core.ldl_numeric (core.new mat)).2).Ai,
          (core.L (core.ldl_numeric (core.new mat)).2).Ax,
          core.D (core.ldl_numeric (core.new mat)).2⟩) := by
    simp [sparse_chol_crs, hmat]
  refine ⟨hres, ?_⟩
  intro k hk
  rw [hres] at hk
  cases hk

/-- C5 (amended), at the matrix `[[0,1],[1,0]]` with breakdown at column 0. -/
theorem C5_breakdown_not_reported_witness :
    sparse_chol_crs (fixedCore 0 ⟨2, 2, [0, 0, 0], [], []⟩ [0, 0]) 2 [1, 2, 3] [2, 1]
        [1, 1] = .ok ([.str "d: ", .int 0], ⟨2, [0, 0, 0], [], [], [0, 0]⟩) :=
  (C5_breakdown_not_reported (fixedCore 0 ⟨2, 2, [0, 0, 0], [], []⟩ [0, 0]) 2
    [1, 2, 3] [2, 1] [1, 1] ⟨2, 2, [0, 1, 2], [1, 0], [1, 1]⟩ (by decide)
    (by decide)).1

/-! ## Mixed index bases -/

/-- C6: the bases of `Ap` and `Ai` are detected independently. For every
input whose `Ap` is zero-based (`Ap[0] = 0`) and whose `Ai` is one-based
(non-empty, every entry at least 1) the ingested matrix has `Ap` unchanged and
every `Ai` entry decremented by one; on the documented input the ingested `Ap`
and `Ai` are the zero-based arrays of the spec's end-to-end example. -/
theorem C6_mixed_bases {V : Type} (n : Int) (Ap Ai : List Int) (Ax : List V)
    (hAi : IntVec Ai) (hAp0 : Ap[0]? = some 0) (hne : Ai ≠ [])
    (hpos : ∀ a ∈ Ai, 1 ≤ a) :
    (∃ mat, ingest n Ap Ai Ax = some mat ∧ mat.Ap = Ap ∧
        mat.Ai = Ai.map (fun a => a - 1)) ∧
      ingest 10 example_Ap example_Ai example_Ax =
        some ⟨10, 10, spec_Ap, spec_Ai, example_Ax⟩ := by
  constructor
  · cases Ap with
    | nil => simp at hAp0
    | cons a Ap =>
      cases Ai with
      | nil => exact absurd rfl hne
      | cons b Ai =>
        have ha : a = 0 := by simpa using hAp0
        have hb : b ≠ 0 := by
          have := hpos b (List.mem_cons_self _ _)
          omega
        subst ha
        refine ⟨_, ingest_cons n 0 b Ap Ai Ax, by simp, ?_⟩
        simp only [hb, if_false]
        apply map_decr_eq_sub_one _ hAi
        intro x hx
        have := hpos x hx
        unfold INT_MIN
        omega
  · have h1 : (if (0 : Int) = 0 then 0 :: example_Ap.tail
        else for_each_decr (0 :: example_Ap.tail)) = spec_Ap := by decide
    have h2 : (if (1 : Int) = 0 then 1 :: example_Ai.tail
        else for_each_decr (1 :: example_Ai.tail)) = spec_Ai := by decide
    show ingest 10 (0 :: example_Ap.tail) (1 :: example_Ai.tail) example_Ax = _
    rw [ingest_cons, h1, h2]

/-- C6, at the documented input of `sparse_chol_crs`. -/
theorem C6_mixed_bases_witness :
    ∃ mat, ingest 10 example_Ap example_Ai example_Ax = some mat ∧
      mat.Ap = example_Ap ∧ mat.Ai = example_Ai.map (fun a => a - 1) :=
  (C6_mixed_bases 10 example_Ap example_Ai example_Ax (by decide) (by decide)
    (by decide) (by decide)).1

/-! ## Negative diagonal -/

/-- C7: for every square dense input whose computed diagonal `D` has some
entry `D[j] < 0`, `sparse_chol` ends with a `NegativeDiagonalError` (raised by
`LD`, after the factorization and before the dense array is produced) instead
of returning an array. -/
theorem C7_negative_diagonal {V : Type} [Zero V] [LT V]
    [DecidableRel (fun (a b : V) => a < b)] (core : Core V) (mat : NumericMatrix V)
    (hsq : mat.cols = mat.rows)
    (hneg : ∃ x ∈ core.D (core.ldl_numeric (core.new
      (core.sparse_of_dense mat.rows mat.cols mat))).2, x < 0) :
    sparse_chol core mat =
      ([.sparse_of_dense, .new, .ldl_numeric, .LD], .error .NegativeDiagonalError) := by
  obtain ⟨x, hx, hx0⟩ := hneg
  have hany : (core.D (core.ldl_numeric (core.new
      (core.sparse_of_dense mat.rows mat.rows mat))).2).any
      (fun x => decide (x < 0)) = true := by
    rw [List.any_eq_true]
    exact ⟨x, by rwa [hsq] at hx, by simpa using hx0⟩
  simp [sparse_chol, hsq, LD, hany]

/-- C7, at a 2 x 2 input whose factorization has `D = [1, -1]`. -/
theorem C7_negative_diagonal_witness :
    sparse_chol (fixedCore 2 ⟨2, 2, [0, 0, 0], [], []⟩ [1, -1]) ⟨2, 2, [1, 0, 0, -1]⟩ =
      ([.sparse_of_dense, .new, .ldl_numeric, .LD], .error .NegativeDiagonalError) :=
  C7_negative_diagonal (fixedCore 2 ⟨2, 2, [0, 0, 0], [], []⟩ [1, -1])
    ⟨2, 2, [1, 0, 0, -1]⟩ (by decide) (by decide)

/-! ## The data-model invariant after ingestion -/

/-- C8: for every `n >= 1` and every valid compressed-column input in
one-based form (`Ap` of length `n+1`, `Ap[0] = 1`, non-decreasing, `Ai`
non-empty with entries in `[1, n]`, `Ax` as long as `Ai`), the ingested matrix
has `rows = columns = n`, `Ap` of length `n+1` with `Ap[0] = 0` and
non-decreasing, every `Ai` entry in `[0, n)` and `Ax` as long as `Ai`. -/
theorem C8_ingested_invariant {V : Type} (n : Int) (Ap Ai : List Int) (Ax : List V)
    (hn : 1 ≤ n) (hnInt : IsInt n) (hAp : IntVec Ap)
    (hvalid : ValidOneBased n Ap Ai Ax) :
    ∃ mat, ingest n Ap Ai Ax = some mat ∧ SparseInvariant n mat := by
  obtain ⟨hlen, hAp0, hmono, hne, hrange, hAx⟩ := hvalid
  cases Ap with
  | nil => simp at hAp0
  | cons a Ap =>
    cases Ai with
    | nil => exact absurd rfl hne
    | cons b Ai =>
      have ha : a = 1 := by simpa using hAp0
      subst ha
      have hb : b ≠ 0 := by
        have := (hrange b (List.mem_cons_self _ _)).1
        omega
      have hge := ge_head_of_nonDecreasing 1 Ap hmono
      have hApmap : for_each_decr ((1 : Int) :: Ap) = ((1 : Int) :: Ap).map (fun a => a - 1) := by
        apply map_decr_eq_sub_one _ hAp
        intro x hx
        have := hge x hx
        unfold INT_MIN
        omega
      have hAimap : for_each_decr (b :: Ai) = (b :: Ai).map (fun a => a - 1) := by
        apply map_decr_eq_sub_one
        · intro x hx
          have := hrange x hx
          unfold IsInt INT_MIN INT_MAX at *
          omega
        · intro x hx
          have := (hrange x hx).1
          unfold INT_MIN
          omega
      refine ⟨_, ingest_cons n 1 b Ap Ai Ax, rfl, rfl, ?_, ?_, ?_, ?_, ?_⟩
      · simp only [one_ne_zero, if_false, hApmap, List.length_map]
        exact hlen
      · simp only [one_ne_zero, if_false, hApmap]
        simp
      · simp only [one_ne_zero, if_false, hApmap]
        unfold NonDecreasing at *
        exact List.Pairwise.map _ (fun x y hxy => by omega) hmono
      · simp only [hb, if_false, hAimap]
        intro x hx
        obtain ⟨y, hy, rfl⟩ := List.mem_map.mp hx
        have := hrange y hy
        omega
      · simp only [hb, if_false, hAimap, List.length_map]
        exact hAx

/-- C8, at the one-based form of the matrix `[[0,1],[1,0]]`. -/
theorem C8_ingested_invariant_witness :
    ∃ mat, ingest 2 [1, 2, 3] [2, 1] [(1 : Int), 1] = some mat ∧
      SparseInvariant 2 mat :=
  C8_ingested_invariant 2 [1, 2, 3] [2, 1] [1, 1] (by decide) (by decide)
    (by decide) (by decide)

/-! ## Base independence -/

/-- C9: for every zero-based input with `Ap[0] = 0` and `Ai[0] = 0`, the input
obtained by adding one to every element of `Ap` and of `Ai` is ingested to the
same matrix, and `sparse_chol_crs` returns the same result on both; the
returned `Ap` and `Ai` are the arrays of the factor `L` as the factorizer left
them, with no conversion back to the caller's base. -/
theorem C9_base_independence {V : Type} (core : Core V) (n : Int) (Ap Ai : List Int)
    (Ax : List V) (hAp : IntVec Ap) (hAi : IntVec Ai)
    (hAp1 : IntVec (Ap.map (fun a => a + 1))) (hAi1 : IntVec (Ai.map (fun a => a + 1)))
    (hAp0 : Ap[0]? = some 0) (hAi0 : Ai[0]? = some 0) :
    ingest n (Ap.map (fun a => a + 1)) (Ai.map (fun a => a + 1)) Ax =
        some ⟨n, n, Ap, Ai, Ax⟩ ∧
      ingest n Ap Ai Ax = some ⟨n, n, Ap, Ai, Ax⟩ ∧
      sparse_chol_crs core n (Ap.map (fun a => a + 1)) (Ai.map (fun a => a + 1)) Ax =
        sparse_chol_crs core n Ap Ai Ax ∧
      sparse_chol_crs core n Ap Ai Ax =
        .ok ([.str "d: ", .int (core.ldl_numeric (core.new ⟨n, n, Ap, Ai, Ax⟩)).1],
          ⟨(core.L (core.ldl_numeric (core.new ⟨n, n, Ap, Ai, Ax⟩)).2).n,
            (core.L (core.ldl_numeric (core.new ⟨n, n, Ap, Ai, Ax⟩)).2).Ap,
            (core.L (core.ldl_numeric (core.new ⟨n, n, Ap, Ai, Ax⟩)).2).Ai,
            (core.L (core.ldl_numeric (core.new ⟨n, n, Ap, Ai, Ax⟩)).2).Ax,
            core.D (core.ldl_numeric (core.new ⟨n, n, Ap, Ai, Ax⟩)).2⟩) := by
  have hback : ∀ xs : List Int, IntVec xs → IntVec (xs.map (fun a => a + 1)) →
      for_each_decr (xs.map (fun a => a + 1)) = xs := by
    intro xs hxs hxs1
    rw [map_decr_eq_sub_one _ hxs1]
    · rw [List.map_map]
      conv_rhs => rw [← List.map_id xs]
      apply List.map_congr_left
      intro x _
      simp
    · intro y hy
      obtain ⟨x, hx, rfl⟩ := List.mem_map.mp hy
      have := hxs x hx
      unfold IsInt INT_MIN INT_MAX at *
      omega
  cases Ap with
  | nil => simp at hAp0
  | cons a Ap =>
    cases Ai with
    | nil => simp at hAi0
    | cons b Ai =>
      have ha : a = 0 := by simpa using hAp0
      have hb : b = 0 := by simpa using hAi0
      subst ha
      subst hb
      have h0 : ingest n ((0 : Int) :: Ap) ((0 : Int) :: Ai) Ax =
          some ⟨n, n, (0 : Int) :: Ap, (0 : Int) :: Ai, Ax⟩ := by
        rw [ingest_cons]
        simp
      have h1 : ingest n (((0 : Int) :: Ap).map (fun a => a + 1))
          (((0 : Int) :: Ai).map (fun a => a + 1)) Ax =
          some ⟨n, n, (0 : Int) :: Ap, (0 : Int) :: Ai, Ax⟩ := by
        have e1 := hback _ hAp hAp1
        have e2 := hback _ hAi hAi1
        simp only [List.map_cons, zero_add] at e1 e2 ⊢
        rw [ingest_cons]
        simp only [one_ne_zero, if_false, e1, e2]
      refine ⟨h1, h0, ?_, ?_⟩
      · simp only [sparse_chol_crs, h1, h0]
      · simp only [sparse_chol_crs, h0]

/-- C9, at the matrix `[[2,0],[0,3]]` in zero-based and one-based form. -/
theorem C9_base_independence_witness :
    sparse_chol_crs (fixedCore 2 ⟨2, 2, [0, 0, 0], [], []⟩ [2, 3]) 2
        ([0, 1, 2].map (fun a => a + 1)) ([0, 1].map (fun a => a + 1)) [2, 3] =
      sparse_chol_crs (fixedCore 2 ⟨2, 2, [0, 0, 0], [], []⟩ [2, 3]) 2 [0, 1, 2] [0, 1]
        [2, 3] :=
  (C9_base_independence (fixedCore 2 ⟨2, 2, [0, 0, 0], [], []⟩ [2, 3]) 2 [0, 1, 2]
    [0, 1] [2, 3] (by decide) (by decide) (by decide) (by decide) (by decide)
    (by decide)).2.2.1

/-! ## Totality and frame of the ingestion step -/

/-- C10, as stated, fails at `n = 1`, `Ap = [0, 1]`, `Ai = [INT_MIN]`: both
arrays are non-empty `int` arrays, the ingested `Ai` is `[INT_MAX]`, which is
neither the input nor the input with every element changed by -1 (`INT_MIN - 1`
is not an `int`). -/
theorem C10_counterexample :
    IntVec [0, 1] ∧ IntVec [-2147483648] ∧
      ingest 1 [0, 1] [-2147483648] [(5 : Int)] =
        some ⟨1, 1, [0, 1], [2147483647], [5]⟩ ∧
      [(2147483647 : Int)] ≠ [-2147483648] ∧
      [(2147483647 : Int)] ≠ [(-2147483648 : Int)].map (fun a => a - 1) ∧
      ¬ IsInt (-2147483648 - 1) := by
  decide

/-- C10 (amended): for every input with non-empty `Ap` and non-empty `Ai` the
reads `Ai[0]` and `Ap[0]` are in bounds and the step completes; it preserves
the lengths of `Ap` and `Ai`, leaves each array unchanged or changes every
element other than `INT_MIN` by exactly -1, leaves `Ax` unchanged and sets
both dimensions to the caller's `n`. With an empty `Ai` the read `Ai[0]` is
out of bounds. -/
theorem C10_ingest_total_and_frame {V : Type} (n : Int) (Ap Ai : List Int)
    (Ax : List V) (hAp : IntVec Ap) (hAi : IntVec Ai) (hApne : Ap ≠ [])
    (hAine : Ai ≠ []) :
    (∃ mat, ingest n Ap Ai Ax = some mat ∧ mat.n = n ∧ mat.m = n ∧ mat.Ax = Ax ∧
        mat.Ap.length = Ap.length ∧ mat.Ai.length = Ai.length ∧
        (mat.Ap = Ap ∨ ∀ (k : Nat) (a : Int), Ap[k]? = some a → a ≠ INT_MIN →
          mat.Ap[k]? = some (a - 1)) ∧
        (mat.Ai = Ai ∨ ∀ (k : Nat) (a : Int), Ai[k]? = some a → a ≠ INT_MIN →
          mat.Ai[k]? = some (a - 1))) ∧
      ingest n Ap [] Ax = none := by
  refine ⟨?_, ingest_nil_Ai n Ap Ax⟩
  cases Ap with
  | nil => exact absurd rfl hApne
  | cons a Ap =>
    cases Ai with
    | nil => exact absurd rfl hAine
    | cons b Ai =>
      refine ⟨_, ingest_cons n a b Ap Ai Ax, rfl, rfl, rfl, ?_, ?_, ?_, ?_⟩
      · by_cases ha : a = 0 <;> simp [ha, for_each_decr]
      · by_cases hb : b = 0 <;> simp [hb, for_each_decr]
      · by_cases ha : a = 0
        · left
          simp [ha]
        · right
          intro k x hk hx
          simp only [ha, if_false]
          exact getElem?_for_each_decr _ hAp k x hk hx
      · by_cases hb : b = 0
        · left
          simp [hb]
        · right
          intro k x hk hx
          simp only [hb, if_false]
          exact getElem?_for_each_decr _ hAi k x hk hx

/-- C10 (amended), at the documented input of `sparse_chol_crs`. -/
theorem C10_ingest_total_and_frame_witness :
    ∃ mat, ingest 10 example_Ap example_Ai example_Ax = some mat ∧ mat.n = 10 ∧
      mat.m = 10 ∧ mat.Ax = example_Ax ∧ mat.Ap.length = example_Ap.length ∧
      mat.Ai.length = example_Ai.length :=
  let ⟨mat, h1, h2, h3, h4, h5, h6, _⟩ :=
    (C10_ingest_total_and_frame 10 example_Ap example_Ai example_Ax (by decide)
      (by decide) (by decide) (by decide)).1
  ⟨mat, h1, h2, h3, h4, h5, h6⟩

end Chol
